import Mathlib

/-!
Verification of the optimization scheduling engine of the Nuitka repository
(src/nuitka/transform/optimizations/Optimization.py): the tag-driven refresh
of the pass queue (`refreshOptimizationsFromTags`), the per-module scheduler
fixpoint loop (`optimizeTree`), and the whole-program sweep driver
(`optimizeWhole`).

The embedding is shallow: Python mutable objects become explicit state that
is threaded through pure Lean functions.  The helper modules `Tags.py`
(class TagSet) and `oset.py` (class OrderedSet) are not part of the source
tree given here; their operations are modelled from the specification, as
noted on each definition.  Everything in `Optimization.py` itself is
translated directly from that file.
-/

namespace Nuitka

/-- Tags are plain strings, exactly as in the source
(`tags.add( "new_code" )`, `tags.check( "new_code new_variable" )`). -/
abbrev Tag := String

/-! ### OrderedSet (the work queue and the module registry)

Modelled from the spec: module `nuitka.oset` (class `OrderedSet`) is not in
src/.  Spec section 4.2: "`add(pass)` inserts at the back unless already
present (no-op then; position of an already-queued pass never moves).
`popFront()` removes and returns the earliest-inserted remaining pass ...
`isEmpty()` is a pure query."  An ordered set is represented as the list of
its elements in insertion order. -/

namespace OrderedSet

/-- Modelled from the spec: `OrderedSet.add` — insert at the back unless
already present. -/
def add {α : Type} [DecidableEq α] (q : List α) (x : α) : List α :=
  if x ∈ q then q else q ++ [x]

/-- Modelled from the spec: `OrderedSet.update` — add every element of
`xs` in order (used as `optimizations_queue.update( ... )` in the source). -/
def update {α : Type} [DecidableEq α] (q : List α) (xs : List α) : List α :=
  xs.foldl add q

/-- Modelled from the spec: `OrderedSet.pop(last = False)` — remove and
return the earliest-inserted remaining element; `none` models the
precondition violation on an empty queue. -/
def popFront {α : Type} (q : List α) : Option (α × List α) :=
  match q with
  | [] => none
  | x :: rest => some (x, rest)

/-- Modelled from the spec: emptiness query (Python truthiness
`while optimizations_queue`). -/
def isEmpty {α : Type} (q : List α) : Bool :=
  q.isEmpty

end OrderedSet

/-! ### TagSet

Modelled from the spec: module `nuitka.transform.optimizations.Tags`
(class `TagSet`) is not in src/.  Spec section 4.1: "`add(tag)` inserts a
tag (idempotent); `clear()` empties the set; `check(predicate)` returns
true iff **every** tag named in `predicate` (a conjunction,
order-irrelevant) is currently present."  The set is represented as the
list of tags in first-emission order; `check` takes the conjunction as the
list of the tags named in the source's space-separated predicate string. -/

abbrev TagSet := List Tag

namespace TagSet

/-- Modelled from the spec: `TagSet.add` — idempotent insertion. -/
def add (ts : TagSet) (t : Tag) : TagSet :=
  if t ∈ ts then ts else ts ++ [t]

/-- Adding each emitted tag in order; models the `on_signal = tags.onSignal`
callback a pass uses to emit tags during `execute`. -/
def addAll (ts : TagSet) (emitted : List Tag) : TagSet :=
  emitted.foldl add ts

/-- Modelled from the spec: `TagSet.check` — true iff every tag of the
conjunction is currently present. -/
def check (ts : TagSet) (pred : List Tag) : Bool :=
  pred.all fun t => decide (t ∈ ts)

/-- Modelled from the spec: `TagSet.clear` — empty the set. -/
def clear (_ : TagSet) : TagSet :=
  []

end TagSet

/-! ### Configuration

The configuration flags read by the rule table in
`refreshOptimizationsFromTags`: `Options.useValuePropagation()` (bound to
the module-level `use_propagation`), `Options.shallMakeModule()` and
`Options.shallOptimizeStringExec()`.  Fixed for one compilation run. -/

structure Config where
  useValuePropagation : Bool
  shallMakeModule : Bool
  shallOptimizeStringExec : Bool
deriving DecidableEq, Repr

/-- The configuration guard of one rule of the eligibility table, as a
first-class value so rule tables are comparable; `eval` gives the Boolean
condition each constructor stands for in the source. -/
inductive CfgCond where
  | always
  | notUseProp
  | useProp
  | notMakeModule
  | stringExec
deriving DecidableEq, Repr

/-- Evaluation of a configuration guard against the run's options, matching
the conditions written in `refreshOptimizationsFromTags`. -/
def CfgCond.eval (c : CfgCond) (cfg : Config) : Bool :=
  match c with
  | .always => true
  | .notUseProp => !cfg.useValuePropagation
  | .useProp => cfg.useValuePropagation
  | .notMakeModule => !cfg.shallMakeModule
  | .stringExec => cfg.shallOptimizeStringExec

/-- One rule of the eligibility table: a required tag conjunction, a
configuration guard, and the passes enqueued when both hold.  In the source
each rule is one `if tags.check( ... ):` statement (with the configuration
condition conjoined, whether written inline or as a nested `if`). -/
structure Rule (α : Type) where
  tags : List Tag
  cond : CfgCond
  passes : List α
deriving DecidableEq

/-- Evaluation of a single rule: when its tag conjunction holds on the
TagSet at entry and its configuration guard holds, its passes are added to
the queue with `OrderedSet.update` (duplicates collapse); otherwise the
queue is unchanged. -/
def applyRule {α : Type} [DecidableEq α] (ts : TagSet) (cfg : Config)
    (q : List α) (r : Rule α) : List α :=
  if TagSet.check ts r.tags && r.cond.eval cfg then OrderedSet.update q r.passes
  else q

/-- The refresh algorithm over an arbitrary rule table: every rule is
evaluated in order against the TagSet contents at entry (no early exit),
then the TagSet is cleared.  `refreshOptimizationsFromTags` in the source
is this algorithm applied to the fixed table `optimizationRules`. -/
def refreshRules {α : Type} [DecidableEq α] (rules : List (Rule α))
    (cfg : Config) (q : List α) (ts : TagSet) : List α × TagSet :=
  (rules.foldl (applyRule ts cfg) q, TagSet.clear ts)

/-- The pass identities named in `Optimization.py`.  The contents of the
list `VariableClosureLookupVisitors` (imported from
`OptimizeVariableClosure`, not in src/) are unknown, so developments below
are parameterized by an arbitrary list `vclv` of such members, represented
by the indexed constructor. -/
inductive Pass where
  | VariableClosureLookupVisitorsMember (i : Nat)
  | ModuleRecursionVisitor
  | OptimizeOperationVisitor
  | OptimizeFunctionCallArgsVisitor
  | ReplaceUnpackingVisitor
  | StatementSequencesCleanupVisitor
  | ModuleVariableUsageAnalysisVisitor
  | ModuleVariableReadOnlyVisitor
  | ReplaceBuiltinsCriticalVisitor
  | ReplaceBuiltinsOptionalVisitor
  | ReplaceBuiltinsExceptionsVisitor
  | PrecomputeBuiltinsVisitor
  | MaybeLocalVariableReductionVisitor
  | OptimizeExecVisitor
  | OptimizeRaisesVisitor
  | ValuePropagationVisitor
deriving DecidableEq, Repr

/-- The eligibility table of `refreshOptimizationsFromTags` with the pass
enqueue each rule is intended to perform, rule for rule in source order.
`vclv` stands for the unknown list `VariableClosureLookupVisitors`.
Caveat: the last rule's `ValuePropagationVisitor` is referenced on source
line 133 but never imported or bound anywhere in `Optimization.py`, so in
the source that rule raises NameError instead of enqueueing whenever it
fires; this idealized table records the intended enqueue, and
`srcOptimizationRules` below models the actual unbound-name behavior. -/
def optimizationRules (vclv : List Pass) : List (Rule Pass) :=
  [ ⟨["new_code", "new_variable"], .always, vclv⟩,
    ⟨["new_code", "new_import", "new_constant"], .notMakeModule,
      [.ModuleRecursionVisitor]⟩,
    ⟨["new_code", "new_constant"], .notUseProp, [.OptimizeOperationVisitor]⟩,
    ⟨["new_code", "new_constant"], .always, [.OptimizeFunctionCallArgsVisitor]⟩,
    ⟨["new_code", "new_constant"], .always, [.ReplaceUnpackingVisitor]⟩,
    ⟨["new_code", "new_statements", "new_constant"], .notUseProp,
      [.StatementSequencesCleanupVisitor]⟩,
    ⟨["new_code", "new_variable"], .always,
      [.ModuleVariableUsageAnalysisVisitor]⟩,
    ⟨["new_code", "read_only_mvar"], .always, [.ModuleVariableReadOnlyVisitor]⟩,
    ⟨["new_code", "read_only_mvar"], .notUseProp,
      [.ReplaceBuiltinsCriticalVisitor]⟩,
    ⟨["new_code", "read_only_mvar"], .notUseProp,
      [.ReplaceBuiltinsOptionalVisitor]⟩,
    ⟨["new_code", "read_only_mvar"], .always,
      [.ReplaceBuiltinsExceptionsVisitor]⟩,
    ⟨["new_builtin", "new_constant"], .notUseProp, [.PrecomputeBuiltinsVisitor]⟩,
    ⟨["var_usage", "new_builtin"], .always,
      [.MaybeLocalVariableReductionVisitor]⟩,
    ⟨["new_code", "new_constant"], .stringExec, [.OptimizeExecVisitor]⟩,
    ⟨["new_code", "new_raise"], .always, [.OptimizeRaisesVisitor]⟩,
    ⟨["new_code", "new_statements", "new_constant", "new_builtin"], .useProp,
      [.ValuePropagationVisitor]⟩ ]

/-- The source's `refreshOptimizationsFromTags( optimizations_queue, tags )`:
evaluate the whole eligibility table against the current tags, then clear
the tags. -/
def refreshOptimizationsFromTags (vclv : List Pass) (cfg : Config)
    (q : List Pass) (ts : TagSet) : List Pass × TagSet :=
  refreshRules (optimizationRules vclv) cfg q ts

/-! ### The refresh with Python name-resolution semantics

`Optimization.py` references the global name `ValuePropagationVisitor` in
its last rule (line 133) without ever importing or binding it, so when that
rule's condition holds the source raises NameError rather than enqueueing a
pass.  The following definitions model the rule bodies as actually written,
with exception semantics: a raise aborts the remaining rule evaluations and
skips the final `tags.clear()` (line 135), and the exception propagates to
the caller. -/

/-- The body of one rule as written in the source: either an enqueue of
visitors the module has bound, or a reference to a global name that nothing
in the module binds, whose evaluation raises NameError. -/
inductive RuleBody (α : Type) where
  | enqueue (passes : List α)
  | unboundName (name : String)
deriving DecidableEq

/-- One rule of the table with its body as written in the source. -/
structure SrcRule (α : Type) where
  tags : List Tag
  cond : CfgCond
  body : RuleBody α
deriving DecidableEq

/-- Evaluating one source rule: when its conjunction and guard hold, an
`enqueue` body adds its passes, while an `unboundName` body raises
(`Except.error` carrying the unbound name); otherwise the queue is
unchanged. -/
def applySrcRule {α : Type} [DecidableEq α] (ts : TagSet) (cfg : Config)
    (q : List α) (r : SrcRule α) : Except String (List α) :=
  if TagSet.check ts r.tags && r.cond.eval cfg then
    match r.body with
    | .enqueue passes => .ok (OrderedSet.update q passes)
    | .unboundName n => .error n
  else .ok q

/-- The refresh over source rules with exception semantics: rules are
evaluated in order; a raise aborts the remaining rules and skips
`tags.clear()`, so the TagSet is cleared only when every rule body
evaluated without raising.  (The queue mutations made before a raise are
unobservable afterwards: the exception also aborts `optimizeTree` and the
whole compilation.) -/
def refreshSrcRules {α : Type} [DecidableEq α] (rules : List (SrcRule α))
    (cfg : Config) (q : List α) (ts : TagSet) :
    Except String (List α × TagSet) := do
  let qFinal ← rules.foldlM (applySrcRule ts cfg) q
  return (qFinal, TagSet.clear ts)

/-- The eligibility table with the rule bodies as written in
`Optimization.py`: the first fifteen rules enqueue visitors the module
imports, the sixteenth references the unbound global
`ValuePropagationVisitor`. -/
def srcOptimizationRules (vclv : List Pass) : List (SrcRule Pass) :=
  [ ⟨["new_code", "new_variable"], .always, .enqueue vclv⟩,
    ⟨["new_code", "new_import", "new_constant"], .notMakeModule,
      .enqueue [.ModuleRecursionVisitor]⟩,
    ⟨["new_code", "new_constant"], .notUseProp,
      .enqueue [.OptimizeOperationVisitor]⟩,
    ⟨["new_code", "new_constant"], .always,
      .enqueue [.OptimizeFunctionCallArgsVisitor]⟩,
    ⟨["new_code", "new_constant"], .always,
      .enqueue [.ReplaceUnpackingVisitor]⟩,
    ⟨["new_code", "new_statements", "new_constant"], .notUseProp,
      .enqueue [.StatementSequencesCleanupVisitor]⟩,
    ⟨["new_code", "new_variable"], .always,
      .enqueue [.ModuleVariableUsageAnalysisVisitor]⟩,
    ⟨["new_code", "read_only_mvar"], .always,
      .enqueue [.ModuleVariableReadOnlyVisitor]⟩,
    ⟨["new_code", "read_only_mvar"], .notUseProp,
      .enqueue [.ReplaceBuiltinsCriticalVisitor]⟩,
    ⟨["new_code", "read_only_mvar"], .notUseProp,
      .enqueue [.ReplaceBuiltinsOptionalVisitor]⟩,
    ⟨["new_code", "read_only_mvar"], .always,
      .enqueue [.ReplaceBuiltinsExceptionsVisitor]⟩,
    ⟨["new_builtin", "new_constant"], .notUseProp,
      .enqueue [.PrecomputeBuiltinsVisitor]⟩,
    ⟨["var_usage", "new_builtin"], .always,
      .enqueue [.MaybeLocalVariableReductionVisitor]⟩,
    ⟨["new_code", "new_constant"], .stringExec,
      .enqueue [.OptimizeExecVisitor]⟩,
    ⟨["new_code", "new_raise"], .always, .enqueue [.OptimizeRaisesVisitor]⟩,
    ⟨["new_code", "new_statements", "new_constant", "new_builtin"], .useProp,
      .unboundName "ValuePropagationVisitor"⟩ ]

/-- The source's `refreshOptimizationsFromTags` with Python name-resolution
semantics for the rule bodies. -/
def srcRefreshOptimizationsFromTags (vclv : List Pass) (cfg : Config)
    (q : List Pass) (ts : TagSet) : Except String (List Pass × TagSet) :=
  refreshSrcRules (srcOptimizationRules vclv) cfg q ts

/-! ### The per-module scheduler loop (`optimizeTree`)

A pass execution `next_optimization().execute( tree, on_signal =
tags.onSignal )` is abstracted by a function
`exec : Pass → Tree → Except Err (Tree × List Tag)`: on success it yields
the mutated tree and the tags emitted through the callback, in emission
order; `Except.error` models a pass raising an unrecoverable error (the
loop has no `try`, so any exception propagates out of `optimizeTree`).
The result of a run records the passes whose execution was started, in
order, so that claims about "no further pass runs" are observable.  `fuel`
bounds the number of loop iterations, since the source loop's termination
is not guaranteed for arbitrary passes. -/

/-- Outcome of running the scheduler loop: normal exit with the final tree,
an error propagating out of a pass, or fuel exhaustion; each carries the
ordered trace of passes whose execution was started. -/
inductive RunResult (Tree Err : Type) where
  | ok (trace : List Pass) (tree : Tree)
  | err (trace : List Pass) (e : Err)
  | fuelOut (trace : List Pass)
deriving DecidableEq

/-- Record a pass at the front of a run's trace. -/
def RunResult.consTrace {Tree Err : Type} (p : Pass) :
    RunResult Tree Err → RunResult Tree Err
  | .ok tr t => .ok (p :: tr) t
  | .err tr e => .err (p :: tr) e
  | .fuelOut tr => .fuelOut (p :: tr)

/-- The `while optimizations_queue:` loop of `optimizeTree`: pop the
earliest queued pass, execute it (tags it emits accumulate into the
TagSet), then refresh — recompute the queue from the tags and clear them —
exactly when the queue is now empty or the "new_code" tag is present
(`if not optimizations_queue or tags.check( "new_code" )`); otherwise keep
popping with the TagSet untouched. -/
def optimizeLoop {Tree Err : Type} (vclv : List Pass) (cfg : Config)
    (exec : Pass → Tree → Except Err (Tree × List Tag)) :
    Nat → List Pass → TagSet → Tree → RunResult Tree Err :=
  fun fuel q ts tree =>
    match q, fuel with
    | [], _ => .ok [] tree
    | _ :: _, 0 => .fuelOut []
    | p :: rest, fuel + 1 =>
      match exec p tree with
      | .error e => .err [p] e
      | .ok (tree', emitted) =>
        let ts' := TagSet.addAll ts emitted
        if OrderedSet.isEmpty rest || TagSet.check ts' ["new_code"] then
          let refreshed := refreshOptimizationsFromTags vclv cfg rest ts'
          (optimizeLoop vclv cfg exec fuel refreshed.1 refreshed.2 tree').consTrace p
        else
          (optimizeLoop vclv cfg exec fuel rest ts' tree').consTrace p

/-- The source's `optimizeTree( tree )`: start from an empty queue and an
empty TagSet, seed the TagSet with "new_code", run one refresh to populate
the queue, then run the scheduler loop. -/
def optimizeTree {Tree Err : Type} (vclv : List Pass) (cfg : Config)
    (exec : Pass → Tree → Except Err (Tree × List Tag)) (fuel : Nat)
    (tree : Tree) : RunResult Tree Err :=
  let ts0 := TagSet.add [] "new_code"
  let seeded := refreshOptimizationsFromTags vclv cfg [] ts0
  optimizeLoop vclv cfg exec fuel seeded.1 seeded.2 tree

/-! ### The whole-program driver (`optimizeWhole`)

For the driver's bookkeeping claims, a module's optimization is abstracted
by `discover : M → List M`, the modules that get registered into the shared
registry (`TreeRecursion.imported_modules`, a name-keyed mapping, so
registering a known handle is a no-op) while that module is optimized.
`DriverState` carries the registry, the driver's `done_modules` set, and
the ordered trace of modules passed to `optimizeTree`. -/

/-- State of one whole-program run: the module registry
(`TreeRecursion.imported_modules`, in registration order), the driver's
`done_modules` set, and the ordered list of modules that `optimizeTree` was
invoked on. -/
structure DriverState (M : Type) where
  registry : List M
  done : List M
  trace : List M
deriving DecidableEq, Repr

/-- Run `optimizeTree` on one module: its discoveries are registered
(known handles collapse), the module joins `done_modules`, and the
invocation is recorded. -/
def processModule {M : Type} [DecidableEq M] (discover : M → List M)
    (s : DriverState M) (m : M) : DriverState M :=
  { registry := OrderedSet.update s.registry (discover m)
    done := OrderedSet.add s.done m
    trace := s.trace ++ [m] }

/-- One sweep: the body of `for other_module in getOtherModules():` over a
snapshot of the registry taken at sweep start; modules already done are
skipped, every other module is processed and marked done, and processing
any module records progress (`finished = False`).  Returns the state and
whether the sweep made progress. -/
def sweep {M : Type} [DecidableEq M] (discover : M → List M) :
    DriverState M → List M → Bool → DriverState M × Bool
  | s, [], progressed => (s, progressed)
  | s, m :: rest, progressed =>
    if m ∈ s.done then sweep discover s rest progressed
    else sweep discover (processModule discover s m) rest true

/-- The `while not finished:` loop of `optimizeWhole`: sweep over a
snapshot of the registry; stop after the first sweep that makes no
progress.  Returns the final state and the progress flag of every sweep in
order, or `none` when `fuel` sweeps did not reach a no-progress sweep. -/
def driverLoop {M : Type} [DecidableEq M] (discover : M → List M) :
    Nat → DriverState M → Option (DriverState M × List Bool)
  | 0, _ => none
  | fuel + 1, s =>
    match sweep discover s s.registry false with
    | (s', true) =>
      match driverLoop discover fuel s' with
      | some out => some (out.1, true :: out.2)
      | none => none
    | (s', false) => some (s', [false])

/-- The source's `optimizeWhole( main_module )`: optimize the main module,
mark it done, then sweep until a whole sweep is a no-op. -/
def optimizeWhole {M : Type} [DecidableEq M] (discover : M → List M)
    (fuel : Nat) (initRegistry : List M) (mainModule : M) :
    Option (DriverState M × List Bool) :=
  driverLoop discover fuel
    (processModule discover
      { registry := initRegistry, done := [], trace := [] } mainModule)

/-! ### Concrete scenario data

Named inputs for the spec's concrete scenarios and for exercising the
theorems below on closed instances. -/

/-- The two passes of the spec's refresh scenario (section 8): a rule table
with "new_code new_variable → PassX" and "new_code → PassY". -/
inductive ScenarioPass where
  | PassX
  | PassY
deriving DecidableEq, Repr

/-- The rule table of the spec's refresh scenario, in the given order. -/
def scenarioRules : List (Rule ScenarioPass) :=
  [ ⟨["new_code", "new_variable"], .always, [.PassX]⟩,
    ⟨["new_code"], .always, [.PassY]⟩ ]

/-- The two passes of the spec's work-queue scenario (section 8). -/
inductive QueuePass where
  | P1
  | P2
deriving DecidableEq, Repr

/-- A configuration with every optional feature off. -/
def cfgAllOff : Config :=
  ⟨false, false, false⟩

/-- A pass execution that succeeds, leaves the tree unchanged and emits no
tags. -/
def execOkNoTags : Pass → Unit → Except String (Unit × List Tag) :=
  fun _ _ => .ok ((), [])

/-- A pass execution that raises an unrecoverable error. -/
def execFails : Pass → Unit → Except String (Unit × List Tag) :=
  fun _ _ => .error "unrecoverable"

/-- Module discovery where optimizing module 0 registers module 1 and
nothing else is ever discovered (the spec's M0/M1 driver scenario). -/
def discoverOnceFromZero : Nat → List Nat :=
  fun n => if n = 0 then [1] else []

/-- Module discovery that never registers anything. -/
def discoverNothing : Nat → List Nat :=
  fun _ => []

/-! ## Helper lemmas -/

theorem OrderedSet.mem_add_self {α : Type} [DecidableEq α] (q : List α)
    (x : α) : x ∈ OrderedSet.add q x := by
  unfold OrderedSet.add
  by_cases h : x ∈ q <;> simp [h]

theorem OrderedSet.mem_add_of_mem {α : Type} [DecidableEq α] {q : List α}
    {y : α} (x : α) (h : y ∈ q) : y ∈ OrderedSet.add q x := by
  unfold OrderedSet.add
  by_cases hx : x ∈ q <;> simp [hx, h]

theorem OrderedSet.mem_add_iff {α : Type} [DecidableEq α] {q : List α}
    {x y : α} : y ∈ OrderedSet.add q x ↔ y ∈ q ∨ y = x := by
  unfold OrderedSet.add
  by_cases hx : x ∈ q
  · simp only [if_pos hx]
    constructor
    · exact Or.inl
    · rintro (h | rfl) <;> [exact h; exact hx]
  · simp [if_neg hx]

theorem OrderedSet.mem_update_of_mem {α : Type} [DecidableEq α] {q : List α}
    {y : α} (xs : List α) (h : y ∈ q) : y ∈ OrderedSet.update q xs := by
  induction xs generalizing q with
  | nil => exact h
  | cons x xs ih => exact ih (OrderedSet.mem_add_of_mem x h)

theorem OrderedSet.mem_update_self {α : Type} [DecidableEq α] (q : List α)
    {xs : List α} {x : α} (h : x ∈ xs) : x ∈ OrderedSet.update q xs := by
  induction xs generalizing q with
  | nil => cases h
  | cons a as ih =>
    rcases List.mem_cons.mp h with rfl | h
    · exact OrderedSet.mem_update_of_mem as (OrderedSet.mem_add_self q x)
    · exact ih (OrderedSet.add q a) h

theorem TagSet.check_eq_false_of_missing {ts pred : List Tag} {t : Tag}
    (hmem : t ∈ pred) (habs : t ∉ ts) : TagSet.check ts pred = false := by
  unfold TagSet.check
  rw [List.all_eq_false]
  exact ⟨t, hmem, by simpa using habs⟩

theorem TagSet.check_congr {ts₁ ts₂ : TagSet} (h : ∀ t, t ∈ ts₁ ↔ t ∈ ts₂)
    (pred : List Tag) : TagSet.check ts₁ pred = TagSet.check ts₂ pred := by
  unfold TagSet.check
  induction pred with
  | nil => rfl
  | cons t pred ih => simp [List.all_cons, ih, h t]

theorem TagSet.check_singleton_iff {ts : TagSet} {t : Tag} :
    TagSet.check ts [t] = true ↔ t ∈ ts := by
  simp [TagSet.check]

theorem mem_applyRule_of_mem {α : Type} [DecidableEq α] {q : List α} {y : α}
    (ts : TagSet) (cfg : Config) (r : Rule α) (h : y ∈ q) :
    y ∈ applyRule ts cfg q r := by
  unfold applyRule
  split
  · exact OrderedSet.mem_update_of_mem _ h
  · exact h

theorem mem_foldl_applyRule_of_mem {α : Type} [DecidableEq α]
    {rules : List (Rule α)} {q : List α} {y : α} (ts : TagSet) (cfg : Config)
    (h : y ∈ q) : y ∈ rules.foldl (applyRule ts cfg) q := by
  induction rules generalizing q with
  | nil => exact h
  | cons r rs ih => exact ih (mem_applyRule_of_mem ts cfg r h)

theorem mem_refreshRules_of_rule {α : Type} [DecidableEq α] (cfg : Config)
    (ts : TagSet) {r : Rule α}
    (hcond : (TagSet.check ts r.tags && r.cond.eval cfg) = true) {p : α}
    (hp : p ∈ r.passes) :
    ∀ (rules : List (Rule α)) (q : List α), r ∈ rules →
      p ∈ (refreshRules rules cfg q ts).1 := by
  intro rules
  induction rules with
  | nil =>
    intro q hr
    cases hr
  | cons r₀ rs ih =>
    intro q hr
    rcases List.mem_cons.mp hr with rfl | hr'
    · unfold refreshRules
      simp only [List.foldl_cons]
      apply mem_foldl_applyRule_of_mem
      unfold applyRule
      rw [if_pos hcond]
      exact OrderedSet.mem_update_self q hp
    · have h := ih (applyRule ts cfg q r₀) hr'
      unfold refreshRules at h ⊢
      simpa [List.foldl_cons] using h

theorem refreshRules_eq_of_no_match {α : Type} [DecidableEq α] {ts : TagSet}
    (cfg : Config) :
    ∀ (rules : List (Rule α)) (q : List α),
      (∀ r ∈ rules, TagSet.check ts r.tags = false) →
      refreshRules rules cfg q ts = (q, []) := by
  intro rules
  induction rules with
  | nil =>
    intro q _
    rfl
  | cons r rs ih =>
    intro q hfail
    have hr : TagSet.check ts r.tags = false :=
      hfail r (List.mem_cons_self r rs)
    have hstep : applyRule ts cfg q r = q := by
      unfold applyRule
      rw [hr]
      simp
    unfold refreshRules TagSet.clear
    simp only [List.foldl_cons, hstep]
    have h := ih q fun r' hr' => hfail r' (List.mem_cons_of_mem r hr')
    unfold refreshRules TagSet.clear at h
    simpa using h

theorem sweep_snd_of_progress {M : Type} [DecidableEq M]
    (discover : M → List M) :
    ∀ (snap : List M) (s : DriverState M),
      (sweep discover s snap true).2 = true := by
  intro snap
  induction snap with
  | nil =>
    intro s
    rfl
  | cons m rest ih =>
    intro s
    unfold sweep
    by_cases hm : m ∈ s.done
    · rw [if_pos hm]
      exact ih s
    · rw [if_neg hm]
      exact ih _

theorem sweep_no_progress {M : Type} [DecidableEq M] (discover : M → List M) :
    ∀ (snap : List M) (s : DriverState M),
      (sweep discover s snap false).2 = false →
      (sweep discover s snap false).1 = s ∧ ∀ m ∈ snap, m ∈ s.done := by
  intro snap
  induction snap with
  | nil =>
    intro s _
    exact ⟨rfl, by simp⟩
  | cons m rest ih =>
    intro s hsnd
    by_cases hm : m ∈ s.done
    · unfold sweep at hsnd ⊢
      rw [if_pos hm] at hsnd ⊢
      obtain ⟨hst, hall⟩ := ih s hsnd
      refine ⟨hst, fun m' hm' => ?_⟩
      rcases List.mem_cons.mp hm' with rfl | hm'
      · exact hm
      · exact hall m' hm'
    · exfalso
      unfold sweep at hsnd
      rw [if_neg hm] at hsnd
      rw [sweep_snd_of_progress discover rest _] at hsnd
      simp at hsnd

theorem sweep_of_all_done {M : Type} [DecidableEq M] (discover : M → List M) :
    ∀ (snap : List M) (s : DriverState M) (b : Bool),
      (∀ m ∈ snap, m ∈ s.done) → sweep discover s snap b = (s, b) := by
  intro snap
  induction snap with
  | nil =>
    intro s b _
    rfl
  | cons m rest ih =>
    intro s b hall
    unfold sweep
    rw [if_pos (hall m (List.mem_cons_self m rest))]
    exact ih s b fun m' hm' => hall m' (List.mem_cons_of_mem m hm')

theorem sweep_inv {M : Type} [DecidableEq M] (discover : M → List M)
    (I : DriverState M → Prop)
    (hproc : ∀ s m, I s → m ∉ s.done → I (processModule discover s m)) :
    ∀ (snap : List M) (s : DriverState M) (b : Bool),
      I s → I (sweep discover s snap b).1 := by
  intro snap
  induction snap with
  | nil =>
    intro s b hI
    exact hI
  | cons m rest ih =>
    intro s b hI
    unfold sweep
    by_cases hm : m ∈ s.done
    · rw [if_pos hm]
      exact ih s b hI
    · rw [if_neg hm]
      exact ih _ true (hproc s m hI hm)

theorem driverLoop_inv {M : Type} [DecidableEq M] (discover : M → List M)
    (I : DriverState M → Prop)
    (hsweep : ∀ snap s b, I s → I (sweep discover s snap b).1) :
    ∀ (fuel : Nat) (s : DriverState M) (out : DriverState M × List Bool),
      driverLoop discover fuel s = some out → I s → I out.1 := by
  intro fuel
  induction fuel with
  | zero =>
    intro s out h
    cases h
  | succ fuel ih =>
    intro s out h hI
    unfold driverLoop at h
    rcases hsw : sweep discover s s.registry false with ⟨s', b⟩
    rw [hsw] at h
    have hI' : I s' := by
      have := hsweep s.registry s false hI
      rw [hsw] at this
      exact this
    cases b with
    | true =>
      have h' : (match driverLoop discover fuel s' with
          | some o => some (o.1, true :: o.2)
          | none => none) = some out := h
      rcases hrec : driverLoop discover fuel s' with _ | out'
      · simp only [hrec] at h'
        cases h'
      · simp only [hrec] at h'
        injection h' with h'
        subst h'
        exact ih s' out' hrec hI'
    | false =>
      cases h
      exact hI'

theorem driverLoop_final_covered {M : Type} [DecidableEq M]
    (discover : M → List M) :
    ∀ (fuel : Nat) (s : DriverState M) (out : DriverState M × List Bool),
      driverLoop discover fuel s = some out →
      ∀ m ∈ out.1.registry, m ∈ out.1.done := by
  intro fuel
  induction fuel with
  | zero =>
    intro s out h
    cases h
  | succ fuel ih =>
    intro s out h
    unfold driverLoop at h
    rcases hsw : sweep discover s s.registry false with ⟨s', b⟩
    rw [hsw] at h
    cases b with
    | true =>
      have h' : (match driverLoop discover fuel s' with
          | some o => some (o.1, true :: o.2)
          | none => none) = some out := h
      rcases hrec : driverLoop discover fuel s' with _ | out'
      · simp only [hrec] at h'
        cases h'
      · simp only [hrec] at h'
        injection h' with h'
        subst h'
        exact ih s' out' hrec
    | false =>
      cases h
      have hsnd : (sweep discover s s.registry false).2 = false := by
        rw [hsw]
      obtain ⟨hst, hall⟩ := sweep_no_progress discover s.registry s hsnd
      rw [hsw] at hst
      cases hst
      exact hall

theorem applyRule_congr {α : Type} [DecidableEq α] {ts₁ ts₂ : TagSet}
    (h : ∀ t, t ∈ ts₁ ↔ t ∈ ts₂) (cfg : Config) (q : List α) (r : Rule α) :
    applyRule ts₁ cfg q r = applyRule ts₂ cfg q r := by
  unfold applyRule
  rw [TagSet.check_congr h]

theorem refreshRules_congr {α : Type} [DecidableEq α] {ts₁ ts₂ : TagSet}
    (h : ∀ t, t ∈ ts₁ ↔ t ∈ ts₂) (cfg : Config) :
    ∀ (rules : List (Rule α)) (q : List α),
      refreshRules rules cfg q ts₁ = refreshRules rules cfg q ts₂ := by
  intro rules
  induction rules with
  | nil =>
    intro q
    rfl
  | cons r rs ih =>
    intro q
    unfold refreshRules TagSet.clear
    simp only [List.foldl_cons, applyRule_congr h cfg q r]
    have hrec := ih (applyRule ts₂ cfg q r)
    unfold refreshRules TagSet.clear at hrec
    simpa using hrec

/-! ## Claims -/

/-- C1: in the scheduler's running state, after every successful pass
execution, a refresh — recomputing the queue from the current tags, then
clearing the tags — is performed if and only if the queue is now empty or
the "new_code" tag is present in the TagSet; in every other case the next
pass is popped with no intervening refresh and the TagSet kept as is. -/
theorem scheduler_refreshes_iff_drained_or_new_code :
    ∀ {Tree Err : Type} (vclv : List Pass) (cfg : Config)
      (exec : Pass → Tree → Except Err (Tree × List Tag)) (fuel : Nat)
      (p : Pass) (rest : List Pass) (ts : TagSet) (tree tree' : Tree)
      (emitted : List Tag),
      exec p tree = .ok (tree', emitted) →
      ((rest = [] ∨ "new_code" ∈ TagSet.addAll ts emitted) →
        optimizeLoop vclv cfg exec (fuel + 1) (p :: rest) ts tree =
          (optimizeLoop vclv cfg exec fuel
            (refreshOptimizationsFromTags vclv cfg rest
              (TagSet.addAll ts emitted)).1
            (refreshOptimizationsFromTags vclv cfg rest
              (TagSet.addAll ts emitted)).2 tree').consTrace p) ∧
      ((rest ≠ [] ∧ "new_code" ∉ TagSet.addAll ts emitted) →
        optimizeLoop vclv cfg exec (fuel + 1) (p :: rest) ts tree =
          (optimizeLoop vclv cfg exec fuel rest (TagSet.addAll ts emitted)
            tree').consTrace p) := by
  intro Tree Err vclv cfg exec fuel p rest ts tree tree' emitted hexec
  constructor
  · intro hcond
    have hb : (OrderedSet.isEmpty rest ||
        TagSet.check (TagSet.addAll ts emitted) ["new_code"]) = true := by
      rcases hcond with rfl | hmem
      · simp [OrderedSet.isEmpty]
      · simp [TagSet.check, hmem]
    simp only [optimizeLoop]
    rw [hexec]
    simp only [hb]
    rfl
  · intro ⟨hne, hmem⟩
    have hb : (OrderedSet.isEmpty rest ||
        TagSet.check (TagSet.addAll ts emitted) ["new_code"]) = false := by
      simp [OrderedSet.isEmpty, TagSet.check, hne, hmem]
    simp only [optimizeLoop]
    rw [hexec]
    simp only [hb]
    rfl

/-- Witness for the refresh-condition theorem: with a two-element queue and
no tag emitted, the step after a successful pass execution pops the next
pass without refreshing. -/
theorem scheduler_refreshes_iff_witness :
    optimizeLoop [] cfgAllOff execOkNoTags 1
        [Pass.OptimizeRaisesVisitor, Pass.ReplaceUnpackingVisitor] [] () =
      (optimizeLoop [] cfgAllOff execOkNoTags 0 [Pass.ReplaceUnpackingVisitor]
        (TagSet.addAll [] []) ()).consTrace Pass.OptimizeRaisesVisitor :=
  (scheduler_refreshes_iff_drained_or_new_code [] cfgAllOff execOkNoTags 0
      Pass.OptimizeRaisesVisitor [Pass.ReplaceUnpackingVisitor] [] () () []
      rfl).2 ⟨by simp, by simp [TagSet.addAll]⟩

/-- C2: when the whole-program driver stops, every module present in the
module registry — including any registered only mid-sweep while another
module was being processed — is in the done set and appears in the trace of
processed modules; no registered module is skipped. -/
theorem whole_program_no_module_skipped :
    ∀ {M : Type} [DecidableEq M] (discover : M → List M) (fuel : Nat)
      (initRegistry : List M) (mainModule : M)
      (out : DriverState M × List Bool),
      optimizeWhole discover fuel initRegistry mainModule = some out →
      ∀ m ∈ out.1.registry, m ∈ out.1.done ∧ m ∈ out.1.trace := by
  intro M _ discover fuel initRegistry mainModule out h m hm
  unfold optimizeWhole at h
  have hdone := driverLoop_final_covered discover fuel _ out h m hm
  have hinv : ∀ x ∈ out.1.done, x ∈ out.1.trace := by
    refine driverLoop_inv discover (fun s => ∀ x ∈ s.done, x ∈ s.trace)
      (fun snap s b hI => sweep_inv discover
        (fun s => ∀ x ∈ s.done, x ∈ s.trace) ?_ snap s b hI) fuel _ out h ?_
    · intro s m' hI _ x hx
      rcases OrderedSet.mem_add_iff.mp hx with hx' | rfl
      · exact List.mem_append_left _ (hI x hx')
      · exact List.mem_append_right _ (List.mem_singleton_self x)
    · intro x hx
      simp [processModule, OrderedSet.add] at hx ⊢
      exact hx
  exact ⟨hdone, hinv m hdone⟩

/-- Witness for the no-module-skipped theorem: in the spec's M0/M1 scenario
the late-discovered module 1 ends up done and processed. -/
theorem whole_program_no_module_skipped_witness :
    (1 : Nat) ∈ (DriverState.mk [1] [0, 1] [0, 1]).done ∧
    (1 : Nat) ∈ (DriverState.mk [1] [0, 1] [0, 1]).trace :=
  whole_program_no_module_skipped discoverOnceFromZero 2 [] 0
    (⟨[1], [0, 1], [0, 1]⟩, [true, false]) (by decide) 1 (by decide)

/-- C3: from any driver state in which every registered module is already
done — after which the registry can no longer grow, since it only grows by
processing — the driver loop terminates at once: it performs exactly one
further sweep, that sweep makes no progress and processes no module, and
the state (registry, done set and trace included) is unchanged. -/
theorem stable_registry_terminates_one_noop_sweep :
    ∀ {M : Type} [DecidableEq M] (discover : M → List M) (fuel : Nat)
      (s : DriverState M),
      (∀ m ∈ s.registry, m ∈ s.done) →
      driverLoop discover (fuel + 1) s = some (s, [false]) := by
  intro M _ discover fuel s hall
  have hsw : sweep discover s s.registry false = (s, false) :=
    sweep_of_all_done discover s.registry s false hall
  simp only [driverLoop]
  rw [hsw]

/-- Witness for the stable-registry termination theorem on a concrete
one-module state. -/
theorem stable_registry_one_noop_sweep_witness :
    driverLoop discoverNothing 5 ⟨[0], [0], [0]⟩ =
      some (⟨[0], [0], [0]⟩, [false]) :=
  stable_registry_terminates_one_noop_sweep discoverNothing 4 ⟨[0], [0], [0]⟩
    (by decide)

/-- C4: the claim fails on the code at a concrete input.  With value
propagation enabled and TagSet {new_code, new_statements, new_constant,
new_builtin}, rule 16's conjunction and guard hold, but its body is the
global name `ValuePropagationVisitor`, which nothing in `Optimization.py`
imports or binds: the refresh raises NameError there — the matching rule
contributes no pass and `tags.clear()` (line 135) never runs — instead of
enqueueing every matching rule's passes and leaving the TagSet empty as the
claim states.  The claim matches the clear intent (spec 4.3; every other
rule's visitor is imported), so the unbound name is a slip in the code. -/
theorem refresh_value_propagation_name_error :
    srcRefreshOptimizationsFromTags [] ⟨true, false, false⟩ []
        ["new_code", "new_statements", "new_constant", "new_builtin"] =
      .error "ValuePropagationVisitor" := by
  rfl

/-- C5: with TagSet exactly {"new_code"} and a table holding the rule
"new_code new_variable → PassX" followed by "new_code → PassY", a refresh
enqueues PassY and not PassX — `check` is true iff every tag of the
conjunction is present — so the resulting queue is [PassY] and the tags are
cleared. -/
theorem scenario_refresh_enqueues_only_PassY :
    ∀ cfg : Config,
      refreshRules scenarioRules cfg [] ["new_code"] =
        ([ScenarioPass.PassY], []) ∧
      TagSet.check ["new_code"] ["new_code"] = true ∧
      TagSet.check ["new_code"] ["new_code", "new_variable"] = false := by
  intro cfg
  exact ⟨rfl, by decide, by decide⟩

/-- C6: every rule of the implemented eligibility table requires at least
one tag other than "new_code"; consequently the initial refresh performed
after seeding the TagSet with only "new_code" enqueues no pass, and
`optimizeTree` returns the tree having executed no optimization pass. -/
theorem initial_refresh_enqueues_nothing :
    ∀ (vclv : List Pass) (cfg : Config) {Tree Err : Type}
      (exec : Pass → Tree → Except Err (Tree × List Tag)) (fuel : Nat)
      (tree : Tree),
      (∀ r ∈ optimizationRules vclv, ∃ t ∈ r.tags, t ≠ "new_code") ∧
      (refreshOptimizationsFromTags vclv cfg []
        (TagSet.add [] "new_code")).1 = [] ∧
      optimizeTree vclv cfg exec fuel tree = .ok [] tree := by
  intro vclv cfg Tree Err exec fuel tree
  have htags : ∀ r ∈ optimizationRules vclv, ∃ t ∈ r.tags, t ≠ "new_code" := by
    intro r hr
    simp only [optimizationRules, List.mem_cons, List.not_mem_nil,
      or_false] at hr
    rcases hr with rfl | hr
    · exact ⟨"new_variable",
        List.mem_cons_of_mem _ (List.mem_cons_self _ _), by decide⟩
    · rcases hr with rfl | rfl | rfl | rfl | rfl | rfl | rfl | rfl | rfl |
        rfl | rfl | rfl | rfl | rfl | rfl
      all_goals decide
  have hcheck : ∀ r ∈ optimizationRules vclv,
      TagSet.check (TagSet.add [] "new_code") r.tags = false := by
    intro r hr
    obtain ⟨t, htmem, htne⟩ := htags r hr
    refine TagSet.check_eq_false_of_missing htmem ?_
    show t ∉ ["new_code"]
    simp [htne]
  have hseed : refreshOptimizationsFromTags vclv cfg []
      (TagSet.add [] "new_code") = ([], []) :=
    refreshRules_eq_of_no_match cfg (optimizationRules vclv) [] hcheck
  refine ⟨htags, by rw [hseed], ?_⟩
  have hdef : optimizeTree vclv cfg exec fuel tree =
      optimizeLoop vclv cfg exec fuel
        (refreshOptimizationsFromTags vclv cfg []
          (TagSet.add [] "new_code")).1
        (refreshOptimizationsFromTags vclv cfg []
          (TagSet.add [] "new_code")).2 tree := rfl
  rw [hdef, hseed]
  cases fuel <;> rfl

/-- Witness for the empty-initial-refresh theorem on a concrete run: the
first rule's conjunction names a tag other than "new_code", and a concrete
`optimizeTree` run executes no pass. -/
theorem initial_refresh_enqueues_nothing_witness :
    (∃ t ∈ (Rule.mk (α := Pass) ["new_code", "new_variable"] .always []).tags,
      t ≠ "new_code") ∧
    optimizeTree [] cfgAllOff execOkNoTags 3 () = RunResult.ok [] () := by
  have h := initial_refresh_enqueues_nothing [] cfgAllOff execOkNoTags 3 ()
  exact ⟨h.1 ⟨["new_code", "new_variable"], .always, []⟩ (by decide), h.2.2⟩

/-- C7: starting from an empty WorkQueue, after add(P1); add(P2); add(P1) —
the duplicate insertion a no-op that moves nothing — the queue is [P1, P2];
popFront returns P1, a second popFront returns P2, and the queue is then
empty. -/
theorem workqueue_duplicate_add_fifo :
    OrderedSet.add (OrderedSet.add (OrderedSet.add ([] : List QueuePass)
        .P1) .P2) .P1 = [QueuePass.P1, QueuePass.P2] ∧
    OrderedSet.popFront [QueuePass.P1, QueuePass.P2] =
      some (QueuePass.P1, [QueuePass.P2]) ∧
    OrderedSet.popFront [QueuePass.P2] = some (QueuePass.P2, []) ∧
    OrderedSet.isEmpty ([] : List QueuePass) = true := by
  exact ⟨by decide, rfl, rfl, rfl⟩

/-- C8: a pass raising an unrecoverable error propagates out of the
scheduler loop uncaught — the loop result is exactly that error, with no
retry, no catch, and no further pass execution after the failing one. -/
theorem pass_error_aborts_loop :
    ∀ {Tree Err : Type} (vclv : List Pass) (cfg : Config)
      (exec : Pass → Tree → Except Err (Tree × List Tag)) (fuel : Nat)
      (p : Pass) (rest : List Pass) (ts : TagSet) (tree : Tree) (e : Err),
      exec p tree = .error e →
      optimizeLoop vclv cfg exec (fuel + 1) (p :: rest) ts tree =
        .err [p] e := by
  intro Tree Err vclv cfg exec fuel p rest ts tree e hexec
  simp only [optimizeLoop]
  rw [hexec]

/-- Witness for the error-propagation theorem: a concrete failing pass
aborts the loop with the pending rest of the queue never executed. -/
theorem pass_error_aborts_loop_witness :
    optimizeLoop [] cfgAllOff execFails 1
        [Pass.OptimizeRaisesVisitor, Pass.ReplaceUnpackingVisitor] [] () =
      RunResult.err [Pass.OptimizeRaisesVisitor] "unrecoverable" :=
  pass_error_aborts_loop [] cfgAllOff execFails 0 Pass.OptimizeRaisesVisitor
    [Pass.ReplaceUnpackingVisitor] [] () "unrecoverable" rfl

/-- C9: refresh is deterministic — two refresh invocations from TagSets of
identical membership, with identical configuration and queue, enqueue the
same passes in the same order and leave the same cleared TagSet. -/
theorem refresh_deterministic :
    ∀ (vclv : List Pass) (cfg : Config) (q : List Pass) (ts₁ ts₂ : TagSet),
      (∀ t, t ∈ ts₁ ↔ t ∈ ts₂) →
      refreshOptimizationsFromTags vclv cfg q ts₁ =
        refreshOptimizationsFromTags vclv cfg q ts₂ := by
  intro vclv cfg q ts₁ ts₂ h
  exact refreshRules_congr h cfg (optimizationRules vclv) q

/-- Witness for refresh determinism: the same tags listed in two different
emission orders refresh identically. -/
theorem refresh_deterministic_witness :
    refreshOptimizationsFromTags [] cfgAllOff []
        ["new_code", "new_variable"] =
      refreshOptimizationsFromTags [] cfgAllOff []
        ["new_variable", "new_code"] :=
  refresh_deterministic [] cfgAllOff [] ["new_code", "new_variable"]
    ["new_variable", "new_code"]
    (fun t => by simp only [List.mem_cons, List.not_mem_nil, or_false]; tauto)

/-- C10: during one run of the whole-program driver, `optimizeTree` is
invoked at most once per module handle — the trace of processed modules has
no duplicates. -/
theorem module_processed_at_most_once :
    ∀ {M : Type} [DecidableEq M] (discover : M → List M) (fuel : Nat)
      (initRegistry : List M) (mainModule : M)
      (out : DriverState M × List Bool),
      optimizeWhole discover fuel initRegistry mainModule = some out →
      out.1.trace.Nodup := by
  intro M _ discover fuel initRegistry mainModule out h
  unfold optimizeWhole at h
  have hinv := driverLoop_inv discover
    (fun s => s.trace.Nodup ∧ ∀ x ∈ s.trace, x ∈ s.done)
    (fun snap s b hI => sweep_inv discover
      (fun s => s.trace.Nodup ∧ ∀ x ∈ s.trace, x ∈ s.done) ?_ snap s b hI)
    fuel _ out h ?_
  · exact hinv.1
  · intro s m' hI hm'
    obtain ⟨hnd, hsub⟩ := hI
    constructor
    · have hnotin : m' ∉ s.trace := fun hc => hm' (hsub m' hc)
      simp [processModule, List.nodup_append, hnd, hnotin]
    · intro x hx
      rcases List.mem_append.mp hx with hx' | hx'
      · exact OrderedSet.mem_add_of_mem m' (hsub x hx')
      · rcases List.mem_singleton.mp hx' with rfl
        exact OrderedSet.mem_add_self s.done x
  · constructor
    · simp [processModule]
    · intro x hx
      simp [processModule, OrderedSet.add] at hx ⊢
      exact hx

/-- Witness for the at-most-once theorem on the concrete M0/M1 run. -/
theorem module_processed_at_most_once_witness :
    ([0, 1] : List Nat).Nodup :=
  module_processed_at_most_once discoverOnceFromZero 2 [] 0
    (⟨[1], [0, 1], [0, 1]⟩, [true, false]) (by decide)

end Nuitka
